import Mathlib

/-!
# LiftLogic — verification of the query-orchestration spec against the code

Shallow embedding of the LiftLogic repository's web-client services
(`knowledgeBase.ts`, `geminiService.ts`, `deepResearch.ts`) and of the
orchestration core (fusion engine, response cache, graph reasoner,
consensus synthesizer) described by the specification.  The web-client
services are translated directly from the TypeScript source; the
orchestration core's Python sources are not part of the repository
snapshot (only its documentation is), so those components are modelled
from the specification, as marked on each definition.
-/

set_option maxHeartbeats 1000000
set_option maxRecDepth 8000

namespace LiftLogic

/-! ## Data model of the web client (`types.ts`) -/

inductive EquipmentType
  | ELEVATOR
  | ESCALATOR
  | UNKNOWN
deriving DecidableEq, Repr

inductive SeverityLevel
  | LOW
  | MEDIUM
  | HIGH
  | CRITICAL
deriving DecidableEq, Repr

/-- `CommunityContribution` from `types.ts`.  `timestamp` and `votes` are JS
numbers used as integers. -/
structure CommunityContribution where
  id : String
  text : String
  refinedContent : Option String
  author : String
  timestamp : Int
  votes : Int
  aiAnalysis : Option String
deriving DecidableEq, Repr

/-- `FaultRecord` from `types.ts`.  The optional recursive field
`consensusRawData` is omitted: none of the functions verified here reads
it.  `model` is renamed `modelName` (reserved word). -/
structure FaultRecord where
  id : String
  code : String
  title : String
  manufacturer : String
  modelName : Option String
  equipmentType : EquipmentType
  description : String
  possibleCauses : List String
  solutions : List String
  severity : SeverityLevel
  lastUpdated : String
  source : String
  communityContributions : Option (List CommunityContribution)
  relatedQueries : Option (List String)
deriving DecidableEq, Repr

/-! ## String helpers (JS `toLowerCase` / `includes` on char lists) -/

/-- Character-wise lowercasing: the embedding of JS `toLowerCase()`. -/
def lowerStr (s : String) : List Char :=
  s.data.map Char.toLower

/-- `p` is a leading segment of `s` (JS `startsWith`). -/
def prefAt : List Char → List Char → Bool
  | [], _ => true
  | _ :: _, [] => false
  | a :: p, b :: s => a == b && prefAt p s

/-- JS `s.includes(pat)`: `pat` occurs contiguously inside `s`. -/
def containsSub : List Char → List Char → Bool
  | [], pat => pat.isEmpty
  | b :: t, pat => prefAt pat (b :: t) || containsSub t pat

/-- Specification-side reading of substring containment. -/
def SubstrOf (pat s : List Char) : Prop :=
  ∃ l r, s = l ++ pat ++ r

/-! ## `knowledgeBase.ts` -/

/-- The filter body of `searchLocalKnowledgeBase`, applied to an already
lowercased query `q`: the record matches when `q` occurs in the lowercased
`code`, `description`, `manufacturer`, or in one of the `relatedQueries`
(a missing `relatedQueries` is falsy). -/
def recordMatches (q : List Char) (r : FaultRecord) : Bool :=
  containsSub (lowerStr r.code) q ||
  containsSub (lowerStr r.description) q ||
  containsSub (lowerStr r.manufacturer) q ||
  (match r.relatedQueries with
   | some rqs => rqs.any fun rq => containsSub (lowerStr rq) q
   | none => false)

/-- `searchLocalKnowledgeBase(query)` over an explicit `MEMORY_CACHE`
state (`null` ↦ `none`): returns `[]` when the cache is uninitialized,
the whole cache when the query is the empty string, and otherwise the
records matching the lowercased query. -/
def searchLocalKnowledgeBase (memoryCache : Option (List FaultRecord))
    (query : String) : List FaultRecord :=
  match memoryCache with
  | none => []
  | some mem =>
      if query.data.isEmpty then mem
      else mem.filter (recordMatches (lowerStr query))

/-- The dedup key of `deduplicateDatabase`:
`` `${r.manufacturer}-${r.code}`.toLowerCase() ``. -/
def dedupKey (r : FaultRecord) : List Char :=
  lowerStr (r.manufacturer ++ "-" ++ r.code)

/-- The comparison score of `deduplicateDatabase`:
`(r.communityContributions?.length || 0) + (r.solutions?.length || 0)`. -/
def contribScore (r : FaultRecord) : Nat :=
  (match r.communityContributions with
   | some l => l.length
   | none => 0) + r.solutions.length

/-- JS `Map.set` on an existing key: replace the value in place, keeping
the key's original position. -/
def setAssoc (k : List Char) (v : FaultRecord) :
    List (List Char × FaultRecord) → List (List Char × FaultRecord)
  | [] => []
  | (k₀, v₀) :: rest =>
      if k₀ = k then (k₀, v) :: rest else (k₀, v₀) :: setAssoc k v rest

/-- JS `Map.get`. -/
def getAssoc (k : List Char) (m : List (List Char × FaultRecord)) :
    Option FaultRecord :=
  (m.find? fun kv => decide (kv.1 = k)).map Prod.snd

/-- One iteration of the `MEMORY_CACHE.forEach` body of
`deduplicateDatabase`: an unseen key is inserted (JS `Map.set` appends);
a seen key keeps the stored record unless the new record's score is
strictly greater, and increments `removedCount` either way. -/
def dedupStep (acc : List (List Char × FaultRecord) × Nat) (r : FaultRecord) :
    List (List Char × FaultRecord) × Nat :=
  let k := dedupKey r
  match getAssoc k acc.1 with
  | none => (acc.1 ++ [(k, r)], acc.2)
  | some existing =>
      (if contribScore existing < contribScore r then setAssoc k r acc.1
       else acc.1,
       acc.2 + 1)

/-- `deduplicateDatabase()` over an explicit `MEMORY_CACHE` state:
returns the new state (`Array.from(unique.values())`) and the
`removedCount` it returns. -/
def deduplicateDatabase (memoryCache : Option (List FaultRecord)) :
    Option (List FaultRecord) × Nat :=
  match memoryCache with
  | none => (none, 0)
  | some mem =>
      let res := mem.foldl dedupStep ([], 0)
      (some (res.1.map Prod.snd), res.2)

/-- Two records are logical duplicates when manufacturer and code agree
case-insensitively (the claim's reading of the dedup key). -/
def SamePair (r₁ r₂ : FaultRecord) : Prop :=
  lowerStr r₁.manufacturer = lowerStr r₂.manufacturer ∧
  lowerStr r₁.code = lowerStr r₂.code

instance : DecidablePred fun rr : FaultRecord × FaultRecord => SamePair rr.1 rr.2 :=
  fun _ => by unfold SamePair; infer_instance

instance (r₁ r₂ : FaultRecord) : Decidable (SamePair r₁ r₂) := by
  unfold SamePair; infer_instance

/-- A base record used to build concrete inputs in the examples below. -/
def rec0 : FaultRecord :=
  { id := "r0", code := "F100", title := "Door fault", manufacturer := "KONE"
    modelName := none, equipmentType := EquipmentType.ELEVATOR
    description := "door stuck", possibleCauses := [], solutions := []
    severity := SeverityLevel.MEDIUM, lastUpdated := "2024-01-01"
    source := "manual", communityContributions := none, relatedQueries := none }

instance : Inhabited FaultRecord := ⟨rec0⟩

/-! ## `geminiService.ts` / `deepResearch.ts`: fault identification -/

/-- An error raised inside the `try` of `identifyFaultFromQuery`: the
gateway call rejecting (timeout or provider error) or the JSON cleanup /
`JSON.parse` of the reply throwing. -/
inductive CallError
  | timeout
  | providerError (msg : String)
  | parseFailure
deriving DecidableEq, Repr

/-- The JSON object the identification prompt asks the model for. -/
structure ParsedFault where
  code : String
  title : String
  manufacturer : String
  modelName : String
  equipmentType : EquipmentType
  description : String
  possibleCauses : List String
  solutions : List String
  severity : Option SeverityLevel
deriving DecidableEq, Repr

/-- The `LLMResponse` of `llmGateway.ts` (`usage` elided: unread here). -/
structure LLMResponse where
  text : String
  provider : String
  modelName : String
deriving DecidableEq, Repr

/-- The record built on the success path of `identifyFaultFromQuery`:
the spread of the parsed data plus a fresh id, the current timestamp,
the provider/model as `source`, and `data.severity || MEDIUM`. -/
def recordOfParsed (d : ParsedFault) (freshId nowIso provider modelName : String) :
    FaultRecord :=
  { id := freshId, code := d.code, title := d.title
    manufacturer := d.manufacturer, modelName := some d.modelName
    equipmentType := d.equipmentType, description := d.description
    possibleCauses := d.possibleCauses, solutions := d.solutions
    severity := d.severity.getD SeverityLevel.MEDIUM
    lastUpdated := nowIso
    source := provider ++ " (" ++ modelName ++ ")"
    communityContributions := none, relatedQueries := none }

/-- The standard (non-DEEP) path of `identifyFaultFromQuery`, with the
two fallible external steps (the gateway call, and the JSON
cleanup-and-parse of its text) passed in as oracles.  Any error raised
by either step is caught and the function resolves with `[]`; a reply
with code `UNKNOWN` also resolves with `[]`. -/
def identifyFaultStandard (gen : Except CallError LLMResponse)
    (parse : String → Except CallError ParsedFault)
    (freshId nowIso : String) : List FaultRecord :=
  match gen with
  | .error _ => []
  | .ok resp =>
      match parse resp.text with
      | .error _ => []
      | .ok d =>
          if d.code = "UNKNOWN" then []
          else [recordOfParsed d freshId nowIso resp.provider resp.modelName]

/-- The record built by the synthesis phase of `performDeepResearch`
(the JS leaves `severity` absent when the model omitted it, which this
record type cannot represent; no verified property reads it). -/
def deepRecordOfParsed (d : ParsedFault) (freshId nowIso provider : String) :
    FaultRecord :=
  { id := freshId, code := d.code, title := d.title
    manufacturer := d.manufacturer, modelName := some d.modelName
    equipmentType := d.equipmentType, description := d.description
    possibleCauses := d.possibleCauses, solutions := d.solutions
    severity := d.severity.getD SeverityLevel.MEDIUM
    lastUpdated := nowIso
    source := "Deep Research (" ++ provider ++ ")"
    communityContributions := none, relatedQueries := none }

/-- `performDeepResearch` (`deepResearch.ts`), phases 2 and 3: the
parallel research calls run under `Promise.all` with no `catch`, so a
single rejection rejects the whole function; the synthesis call's
failure is caught and the function resolves with `null` (`none`).  The
planning phase never fails (it has a fallback) and only shapes prompts,
so it is elided. -/
def performDeepResearch (research : List (Except CallError LLMResponse))
    (synthesis : Except CallError ParsedFault)
    (freshId nowIso provider : String) : Except CallError (Option FaultRecord) :=
  match research.findSome? (fun res =>
      match res with
      | .error e => some e
      | .ok _ => none) with
  | some e => .error e
  | none =>
      match synthesis with
      | .error _ => .ok none
      | .ok d => .ok (some (deepRecordOfParsed d freshId nowIso provider))

/-- The DEEP branch of `identifyFaultFromQuery`:
`return deepResult ? [deepResult] : []`. -/
def identifyFaultDeep (deepResult : Option FaultRecord) : List FaultRecord :=
  match deepResult with
  | some r => [r]
  | none => []

/-! ## Response cache (orchestration core) -/

/-- Modelled from the spec: the ResponseCache of the orchestration core
(§4.2) is not part of the repository snapshot (only its workflow
documentation is).  A `CacheEntry` carries the value, its creation time
and its time-to-live; entries expire by TTL, `ttl = 0` expiring
instantly.  Capacity/LRU eviction is not needed by the verified
properties and is not modelled. -/
structure CacheEntry (V : Type) where
  value : V
  storedAt : Nat
  ttl : Nat
deriving DecidableEq, Repr

/-- Modelled from the spec: the cache store, most recent puts first. -/
abbrev CacheState (V : Type) : Type := List (String × CacheEntry V)

/-- Modelled from the spec: `put(fp, v, ttl)` at time `now`. -/
def cachePut {V : Type} (c : CacheState V) (fp : String) (v : V)
    (ttl now : Nat) : CacheState V :=
  (fp, ⟨v, now, ttl⟩) :: c

/-- Modelled from the spec: `get(fp)` at time `now` returns the stored
value only while `now < storedAt + ttl`; a CacheEntry is never returned
past its TTL. -/
def cacheGet {V : Type} (c : CacheState V) (fp : String) (now : Nat) :
    Option V :=
  match c.find? (fun kv => decide (kv.1 = fp)) with
  | none => none
  | some kv =>
      if now < kv.2.storedAt + kv.2.ttl then some kv.2.value else none

/-! ## Single-flight (orchestration core) -/

/-- Modelled from the spec: program counter of one `getOrCompute`
caller (§4.2/§5) — the atomic check-and-claim step moves a caller to
`computing` (claiming the in-flight slot and invoking `slowFn`) or to
`waiting`; the computer's finish step publishes the cached result;
waiters complete once the result is published. -/
inductive CallerPC
  | start
  | computing
  | waiting
  | done
deriving DecidableEq, Repr

/-- Modelled from the spec: the shared state for one fingerprint with
two concurrent callers.  `calls` counts `slowFn` invocations. -/
structure SFState where
  cached : Bool
  inflight : Bool
  calls : Nat
  pc₁ : CallerPC
  pc₂ : CallerPC
deriving DecidableEq, Repr

/-- Modelled from the spec: one atomic step of a single caller. -/
def sfCallerStep (cached inflight : Bool) (calls : Nat) (pc : CallerPC) :
    Bool × Bool × Nat × CallerPC :=
  match pc with
  | .start =>
      if cached then (cached, inflight, calls, .done)
      else if inflight then (cached, inflight, calls, .waiting)
      else (cached, true, calls + 1, .computing)
  | .computing => (true, false, calls, .done)
  | .waiting =>
      if cached then (cached, inflight, calls, .done)
      else (cached, inflight, calls, .waiting)
  | .done => (cached, inflight, calls, .done)

/-- Modelled from the spec: an interleaving step — the scheduler picks
caller 1 (`true`) or caller 2 (`false`). -/
def sfStep (s : SFState) (chooseFirst : Bool) : SFState :=
  if chooseFirst then
    let r := sfCallerStep s.cached s.inflight s.calls s.pc₁
    ⟨r.1, r.2.1, r.2.2.1, r.2.2.2, s.pc₂⟩
  else
    let r := sfCallerStep s.cached s.inflight s.calls s.pc₂
    ⟨r.1, r.2.1, r.2.2.1, s.pc₁, r.2.2.2⟩

/-- Run a schedule (an arbitrary finite interleaving). -/
def sfRun (s : SFState) : List Bool → SFState
  | [] => s
  | b :: sched => sfRun (sfStep s b) sched

/-- Both callers request the same fingerprint, nothing cached yet. -/
def sfInit : SFState := ⟨false, false, 0, .start, .start⟩

/-- The single-flight safety invariant. -/
def SFInv (s : SFState) : Prop :=
  s.calls = (if s.inflight || s.cached then 1 else 0) ∧
  (s.pc₁ = CallerPC.done → s.cached = true) ∧
  (s.pc₂ = CallerPC.done → s.cached = true) ∧
  (s.pc₁ = CallerPC.computing → s.inflight = true ∧ s.cached = false) ∧
  (s.pc₂ = CallerPC.computing → s.inflight = true ∧ s.cached = false) ∧
  ¬(s.pc₁ = CallerPC.computing ∧ s.pc₂ = CallerPC.computing)

/-! ## Graph reasoner (orchestration core) -/

/-- Modelled from the spec: node types of the causal graph (§3). -/
inductive NodeType
  | COMPONENT
  | FAULT_CODE
  | PROCEDURE
deriving DecidableEq, Repr

/-- Modelled from the spec: edge types of the causal graph (§3). -/
inductive EdgeType
  | CONNECTED_TO
  | CAUSED_BY
deriving DecidableEq, Repr

/-- Modelled from the spec: a causal node (property map elided: the
traversal consults only identifiers and edge types). -/
structure CausalNode where
  nodeId : String
  nodeType : NodeType
deriving DecidableEq, Repr

/-- Modelled from the spec: a directed edge from `src` to `tgt`. -/
structure CausalEdge where
  src : String
  edgeType : EdgeType
  tgt : String
deriving DecidableEq, Repr

/-- Modelled from the spec: a directed, possibly cyclic multigraph with
deterministic iteration order (lists). -/
structure CausalGraph where
  nodes : List CausalNode
  edges : List CausalEdge
deriving DecidableEq, Repr

/-- Modelled from the spec: `getNode(id)`. -/
def getNode (g : CausalGraph) (i : String) : Option CausalNode :=
  g.nodes.find? (fun n => decide (n.nodeId = i))

/-- Modelled from the spec: `getOutgoingEdges(id, CAUSED_BY)` targets,
in the store's deterministic order. -/
def outgoing (g : CausalGraph) (i : String) : List String :=
  (g.edges.filter (fun e =>
      decide (e.src = i) && decide (e.edgeType = EdgeType.CAUSED_BY))).map
    CausalEdge.tgt

/-- One `(node, edge, node)` triple of a CausalChain. -/
structure ChainLink where
  fromId : String
  edgeType : EdgeType
  toId : String
deriving DecidableEq, Repr

/-- Modelled from the spec: one breadth-first layer.  The frontier is
scanned in order; every CAUSED_BY target not yet in the visited set is
recorded as a chain link, appended to the next frontier, and marked
visited.  Returns (visited', links, next frontier). -/
def bfsLayer (g : CausalGraph) (frontier visited : List String) :
    List String × List ChainLink × List String :=
  frontier.foldl
    (fun acc u =>
      (outgoing g u).foldl
        (fun acc₂ v =>
          if v ∈ acc₂.1 then acc₂
          else (v :: acc₂.1,
                acc₂.2.1 ++ [⟨u, EdgeType.CAUSED_BY, v⟩],
                acc₂.2.2 ++ [v]))
        acc)
    (visited, [], [])

/-- Modelled from the spec: breadth-first traversal bounded by the
remaining depth, with the visited set guarding against cycles. -/
def bfsAux (g : CausalGraph) : Nat → List String → List String → List ChainLink
  | 0, _, _ => []
  | d + 1, visited, frontier =>
      let l := bfsLayer g frontier visited
      l.2.1 ++ bfsAux g d l.1 l.2.2

/-- Modelled from the spec: `findCauses(faultNodeId, maxDepth)` —
breadth-first along CAUSED_BY edges from the fault node, depth-bounded,
cycle-safe; an unknown node yields the empty chain. -/
def findCauses (g : CausalGraph) (faultId : String) (maxDepth : Nat) :
    List ChainLink :=
  match getNode g faultId with
  | none => []
  | some _ => bfsAux g maxDepth [faultId] [faultId]

/-- The cyclic two-node graph of the spec's testable property:
A CAUSED_BY B and B CAUSED_BY A. -/
def cycleGraph : CausalGraph :=
  { nodes := [⟨"A", NodeType.FAULT_CODE⟩, ⟨"B", NodeType.COMPONENT⟩]
    edges := [⟨"A", EdgeType.CAUSED_BY, "B"⟩, ⟨"B", EdgeType.CAUSED_BY, "A"⟩] }

/-- Invariant of the accumulator of a BFS layer relative to the visited
set `visited₀` the layer started from: the visited set stays
duplicate-free and only grows, the recorded links' targets are exactly
the next frontier, and every newly discovered node is marked visited and
was not visited before the layer. -/
def LayerAccOk (visited₀ : List String)
    (acc : List String × List ChainLink × List String) : Prop :=
  acc.1.Nodup ∧
  (∀ x ∈ visited₀, x ∈ acc.1) ∧
  acc.2.1.map ChainLink.toId = acc.2.2 ∧
  acc.2.2.Nodup ∧
  (∀ v ∈ acc.2.2, v ∈ acc.1 ∧ v ∉ visited₀)

/-! ## Consensus synthesizer (orchestration core) -/

/-- Modelled from the spec: one expert's synthesized diagnosis (§3). -/
structure ExpertOpinion where
  causes : List String
  remedies : List String
  severity : SeverityLevel
  confidence : ℚ
deriving DecidableEq, Repr

/-- Modelled from the spec: normalization of cause/remedy text for
grouping ("exact/near-duplicate cause strings collapse into one"),
modelled as character-wise lowercasing. -/
def normText (s : String) : List Char := lowerStr s

/-- An opinion names a cause (after normalization). -/
def namesCause (o : ExpertOpinion) (c : List Char) : Bool :=
  o.causes.any fun s => decide (normText s = c)

/-- Number of opinions naming a cause. -/
def supportCount (os : List ExpertOpinion) (c : List Char) : Nat :=
  (os.filter fun o => namesCause o c).length

/-- Highest individual confidence among the opinions naming a cause
(the spec's tie-break). -/
def supportConf (os : List ExpertOpinion) (c : List Char) : ℚ :=
  ((os.filter fun o => namesCause o c).map ExpertOpinion.confidence).foldr
    max 0

/-- Candidate (normalized) causes, in first-appearance order. -/
def candidateCauses (os : List ExpertOpinion) : List (List Char) :=
  (os.flatMap fun o => o.causes.map normText).foldl
    (fun acc c => if c ∈ acc then acc else acc ++ [c]) []

/-- Strictly better candidate: named by more opinions, or by equally
many with a strictly higher best individual confidence. -/
def betterCause (os : List ExpertOpinion) (c₁ c₂ : List Char) : Bool :=
  decide (supportCount os c₂ < supportCount os c₁) ||
  (decide (supportCount os c₁ = supportCount os c₂) &&
    decide (supportConf os c₂ < supportConf os c₁))

/-- Modelled from the spec: the dominant cause — the candidate named by
the largest number of opinions, ties broken by the highest individual
confidence, then by first appearance. -/
def dominantCause (os : List ExpertOpinion) : Option (List Char) :=
  (candidateCauses os).foldl
    (fun best c =>
      match best with
      | none => some c
      | some b => if betterCause os c b then some c else some b)
    none

/-- Modelled from the spec: remedies unioned across all opinions,
deduplicated by normalized text. -/
def remediesUnion (os : List ExpertOpinion) : List (List Char) :=
  (os.flatMap fun o => o.remedies.map normText).foldl
    (fun acc c => if c ∈ acc then acc else acc ++ [c]) []

/-- Modelled from the spec: the merged ConsensusResult (§3, §4.5). -/
structure ConsensusResult where
  dominant : Option (List Char)
  level : ℚ
  disagreements : List (List Char)
  remedies : List (List Char)
deriving DecidableEq

/-- Modelled from the spec: merge the successful opinions — consensus
level = (opinions naming the dominant cause) / (successful opinions);
every cause named by fewer opinions than the dominant one is a recorded
disagreement. -/
def mergeOpinions (os : List ExpertOpinion) : ConsensusResult :=
  match dominantCause os with
  | none => ⟨none, 0, [], remediesUnion os⟩
  | some c =>
      ⟨some c, (supportCount os c : ℚ) / (os.length : ℚ),
       (candidateCauses os).filter
         (fun c' => decide (supportCount os c' < supportCount os c)),
       remediesUnion os⟩

/-- Modelled from the spec: why a diagnosis pass was excluded (§4.5,
§7). -/
inductive PassError
  | timeout
  | providerError (msg : String)
  | rateLimited
deriving DecidableEq, Repr

/-- Modelled from the spec: the outcome of one diagnosis pass. -/
inductive PassOutcome
  | success (o : ExpertOpinion)
  | failed (e : PassError)
deriving DecidableEq, Repr

/-- Modelled from the spec: the hard failure of `synthesize`. -/
inductive SynthError
  | allExpertsFailed
deriving DecidableEq, Repr

/-- The successful opinions among the pass outcomes. -/
def successes (passes : List PassOutcome) : List ExpertOpinion :=
  passes.filterMap fun p =>
    match p with
    | .success o => some o
    | .failed _ => none

/-- Modelled from the spec: `synthesize` waits for all passes; a failed
or timed-out pass is excluded, not retried; if every pass failed the
call fails with AllExpertsFailed, else the successful opinions are
merged. -/
def synthesize (passes : List PassOutcome) : Except SynthError ConsensusResult :=
  if successes passes = [] then Except.error SynthError.allExpertsFailed
  else Except.ok (mergeOpinions (successes passes))

/-- The spec's concrete consensus example: two opinions naming
"sensor misalignment", one naming "wiring fault". -/
def exOpinions : List ExpertOpinion :=
  [⟨["sensor misalignment"], ["realign sensor"], SeverityLevel.MEDIUM, 8⟩,
   ⟨["sensor misalignment"], [], SeverityLevel.MEDIUM, 7⟩,
   ⟨["wiring fault"], ["replace harness"], SeverityLevel.HIGH, 6⟩]

/-! ## Fusion engine (orchestration core) -/

/-- Modelled from the spec: a RankedHit — identifier and 1-based rank
(the payload snippet is elided: fusion consults only id and rank). -/
structure RankedHit where
  id : String
  rank : Nat
deriving DecidableEq, Repr

/-- The reciprocal-rank contribution 1/(k+r) of a hit at rank r. -/
def rrfContrib (k : ℚ) (r : Nat) : ℚ := 1 / (k + r)

/-- Sum of the reciprocal-rank contributions of an identifier's
occurrences in one list. -/
def listScore (k : ℚ) (hits : List RankedHit) (i : String) : ℚ :=
  ((hits.filter fun h => decide (h.id = i)).map fun h =>
    rrfContrib k h.rank).sum

/-- Modelled from the spec: scores for the same identifier from both
lists are summed. -/
def fusedScore (k : ℚ) (l₁ l₂ : List RankedHit) (i : String) : ℚ :=
  listScore k l₁ i + listScore k l₂ i

/-- The best (lowest) rank of an identifier in the lexical list, `⊤`
when absent — the spec's first tie-break key. -/
def lexBestRank (l₁ : List RankedHit) (i : String) : WithTop Nat :=
  ((l₁.filter fun h => decide (h.id = i)).map fun h =>
    ((h.rank : Nat) : WithTop Nat)).foldr min ⊤

/-- Modelled from the spec: a FusedResult (sort key fields). -/
structure FusedResult where
  id : String
  score : ℚ
  lexRank : WithTop Nat
deriving DecidableEq

/-- Keep the first occurrence of each identifier. -/
def dedupFirst (l : List String) : List String :=
  l.foldl (fun acc i => if i ∈ acc then acc else acc ++ [i]) []

/-- Modelled from the spec: the output order — descending fused score,
ties by the better (lower) rank in the lexical list, then by
identifier. -/
def fuseKeyLE (a b : FusedResult) : Prop :=
  b.score < a.score ∨
    (a.score = b.score ∧
      (a.lexRank < b.lexRank ∨ (a.lexRank = b.lexRank ∧ a.id ≤ b.id)))

instance (a b : FusedResult) : Decidable (fuseKeyLE a b) := by
  unfold fuseKeyLE; infer_instance

/-- Boolean comparator for the sort. -/
def fuseLe (a b : FusedResult) : Bool := decide (fuseKeyLE a b)

/-- Modelled from the spec (§4.3): reciprocal rank fusion — each hit at
1-based rank r contributes 1/(k+r) to its identifier's total (k is the
configurable smoothing constant), scores from both lists are summed per
identifier, the results are sorted by the documented total order, and
the output is truncated to `limit`. -/
def fuse (k : ℚ) (l₁ l₂ : List RankedHit) (limit : Nat) : List FusedResult :=
  let cands := dedupFirst (l₁.map RankedHit.id ++ l₂.map RankedHit.id)
  let items := cands.map fun i =>
    FusedResult.mk i (fusedScore k l₁ l₂ i) (lexBestRank l₁ i)
  (items.mergeSort fuseLe).take limit

/-- Invariant of the `deduplicateDatabase` fold: after processing the
records `p`, the map `m` holds distinct keys, each entry's record is the
earliest highest-scoring processed record with that key, every processed
record's key is present in the map, and `n` counts the processed records
that hit an already-present key. -/
def DedupInv (p : List FaultRecord) (m : List (List Char × FaultRecord))
    (n : Nat) : Prop :=
  (m.map Prod.fst).Nodup ∧
  (∀ kv ∈ m, dedupKey kv.2 = kv.1 ∧
     ∃ p₁ p₂, p = p₁ ++ kv.2 :: p₂ ∧
       (∀ r' ∈ p₁, dedupKey r' = kv.1 → contribScore r' < contribScore kv.2) ∧
       (∀ r' ∈ p₂, dedupKey r' = kv.1 → contribScore r' ≤ contribScore kv.2)) ∧
  (∀ r' ∈ p, ∃ kv ∈ m, kv.1 = dedupKey r') ∧
  m.length + n = p.length

/-! ## Lemmas: substring containment -/

theorem prefAt_iff (p s : List Char) : prefAt p s = true ↔ ∃ r, s = p ++ r := by
  induction p generalizing s with
  | nil => simp [prefAt]
  | cons a p ih =>
      cases s with
      | nil =>
          simp [prefAt]
      | cons b t =>
          simp only [prefAt, Bool.and_eq_true, beq_iff_eq, ih]
          constructor
          · rintro ⟨rfl, r, rfl⟩
            exact ⟨r, rfl⟩
          · rintro ⟨r, h⟩
            injection h with h₁ h₂
            exact ⟨h₁.symm, r, h₂⟩

theorem containsSub_iff (s pat : List Char) :
    containsSub s pat = true ↔ SubstrOf pat s := by
  induction s with
  | nil =>
      simp only [containsSub, List.isEmpty_iff, SubstrOf]
      constructor
      · rintro rfl
        exact ⟨[], [], rfl⟩
      · rintro ⟨l, r, h⟩
        rcases List.append_eq_nil.mp h.symm with ⟨h₁, h₂⟩
        exact (List.append_eq_nil.mp h₁).2
  | cons b t ih =>
      simp only [containsSub, Bool.or_eq_true, prefAt_iff, ih, SubstrOf]
      constructor
      · rintro (⟨r, hr⟩ | ⟨l, r, hr⟩)
        · exact ⟨[], r, by simp [hr]⟩
        · exact ⟨b :: l, r, by simp [hr]⟩
      · rintro ⟨l, r, hr⟩
        cases l with
        | nil =>
            exact Or.inl ⟨r, by simpa using hr⟩
        | cons c l' =>
            injection hr with h₁ h₂
            exact Or.inr ⟨l', r, h₂⟩

/-! ## C9: `searchLocalKnowledgeBase` -/

theorem recordMatches_iff (q : List Char) (r : FaultRecord) :
    recordMatches q r = true ↔
      (SubstrOf q (lowerStr r.code) ∨ SubstrOf q (lowerStr r.description) ∨
       SubstrOf q (lowerStr r.manufacturer) ∨
       ∃ rqs, r.relatedQueries = some rqs ∧
         ∃ rq ∈ rqs, SubstrOf q (lowerStr rq)) := by
  unfold recordMatches
  cases hrq : r.relatedQueries with
  | none =>
      simp [containsSub_iff]
      tauto
  | some rqs =>
      simp [containsSub_iff, List.any_eq_true]
      tauto

/-- C9: for every knowledge-base state, `searchLocalKnowledgeBase` on the
empty-string query returns the entire stored list, returns `[]` whenever
the knowledge base is uninitialized, and on a non-empty query returns
exactly the records whose code, description, manufacturer, or one of
their relatedQueries contains the query as a case-insensitive substring;
the title field is never consulted (retitling every record commutes with
the search). -/
theorem searchLocalKnowledgeBase_spec (kb : List FaultRecord) (q t : String)
    (hq : q ≠ "") :
    searchLocalKnowledgeBase none q = [] ∧
    searchLocalKnowledgeBase (some kb) "" = kb ∧
    (∀ r, r ∈ searchLocalKnowledgeBase (some kb) q ↔
       r ∈ kb ∧
       (SubstrOf (lowerStr q) (lowerStr r.code) ∨
        SubstrOf (lowerStr q) (lowerStr r.description) ∨
        SubstrOf (lowerStr q) (lowerStr r.manufacturer) ∨
        ∃ rqs, r.relatedQueries = some rqs ∧
          ∃ rq ∈ rqs, SubstrOf (lowerStr q) (lowerStr rq))) ∧
    searchLocalKnowledgeBase (some (kb.map fun r => { r with title := t })) q
      = (searchLocalKnowledgeBase (some kb) q).map fun r => { r with title := t } := by
  have hqe : q.data.isEmpty = false := by
    cases q with
    | mk d =>
        cases d with
        | nil => simp at hq
        | cons a u => simp
  refine ⟨rfl, by simp [searchLocalKnowledgeBase], ?_, ?_⟩
  · intro r
    simp [searchLocalKnowledgeBase, hqe, List.mem_filter, recordMatches_iff]
  · simp only [searchLocalKnowledgeBase, hqe, Bool.false_eq_true, if_false]
    exact List.filter_map _ kb

theorem searchLocalKnowledgeBase_spec_witness :
    ("kone" : String) ≠ "" ∧ searchLocalKnowledgeBase (some [rec0]) "" = [rec0] :=
  ⟨by decide, (searchLocalKnowledgeBase_spec [rec0] "kone" "X" (by decide)).2.1⟩

/-! ## Lemmas: association-list model of the JS `Map` -/

theorem setAssoc_map_fst (k : List Char) (v : FaultRecord)
    (m : List (List Char × FaultRecord)) :
    (setAssoc k v m).map Prod.fst = m.map Prod.fst := by
  induction m with
  | nil => rfl
  | cons kv rest ih =>
      obtain ⟨k₀, v₀⟩ := kv
      by_cases h : k₀ = k <;> simp [setAssoc, h, ih]

theorem length_setAssoc (k : List Char) (v : FaultRecord)
    (m : List (List Char × FaultRecord)) :
    (setAssoc k v m).length = m.length := by
  have h := congrArg List.length (setAssoc_map_fst k v m)
  simpa using h

theorem getAssoc_eq_none_iff (k : List Char)
    (m : List (List Char × FaultRecord)) :
    getAssoc k m = none ↔ ∀ kv ∈ m, kv.1 ≠ k := by
  unfold getAssoc
  rw [Option.map_eq_none', List.find?_eq_none]
  simp

theorem getAssoc_eq_some_mem {k : List Char} {v : FaultRecord}
    {m : List (List Char × FaultRecord)} (h : getAssoc k m = some v) :
    (k, v) ∈ m := by
  unfold getAssoc at h
  cases hf : m.find? (fun kv => decide (kv.1 = k)) with
  | none => rw [hf] at h; simp at h
  | some kv =>
      rw [hf] at h
      simp only [Option.map_some', Option.some.injEq] at h
      have hp := List.find?_some hf
      have hm := List.mem_of_find?_eq_some hf
      simp only [decide_eq_true_eq] at hp
      have : kv = (k, v) := by
        obtain ⟨k₁, v₁⟩ := kv
        simp only at hp h
        rw [hp, h]
      exact this ▸ hm

theorem getAssoc_unique {k : List Char} {v : FaultRecord}
    {m : List (List Char × FaultRecord)} (hnd : (m.map Prod.fst).Nodup)
    (h : getAssoc k m = some v) :
    ∀ kv ∈ m, kv.1 = k → kv = (k, v) := by
  intro kv hmem hk
  have hkv : (k, v) ∈ m := getAssoc_eq_some_mem h
  exact List.inj_on_of_nodup_map hnd hmem hkv (by simp [hk])

theorem mem_setAssoc_iff {k : List Char} {v : FaultRecord}
    {m : List (List Char × FaultRecord)} (kv : List Char × FaultRecord)
    (hnd : (m.map Prod.fst).Nodup) (hk : k ∈ m.map Prod.fst) :
    kv ∈ setAssoc k v m ↔ (kv ∈ m ∧ kv.1 ≠ k) ∨ kv = (k, v) := by
  induction m with
  | nil => simp at hk
  | cons kv₀ rest ih =>
      obtain ⟨k₀, v₀⟩ := kv₀
      simp only [List.map_cons, List.nodup_cons] at hnd
      by_cases h : k₀ = k
      · subst h
        have hset : setAssoc k₀ v ((k₀, v₀) :: rest) = (k₀, v) :: rest := by
          simp [setAssoc]
        have hrest : ∀ kv' ∈ rest, kv'.1 ≠ k₀ := by
          intro kv' hkv' heq
          exact hnd.1 (heq ▸ List.mem_map_of_mem Prod.fst hkv')
        rw [hset]
        constructor
        · intro hL
          rcases List.mem_cons.mp hL with rfl | hL'
          · exact Or.inr rfl
          · exact Or.inl ⟨List.mem_cons_of_mem _ hL', hrest kv hL'⟩
        · intro hR
          rcases hR with ⟨hmem, hne⟩ | rfl
          · rcases List.mem_cons.mp hmem with rfl | hmem'
            · exact absurd rfl hne
            · exact List.mem_cons_of_mem _ hmem'
          · exact List.mem_cons_self _ _
      · have hset : setAssoc k v ((k₀, v₀) :: rest)
            = (k₀, v₀) :: setAssoc k v rest := by
          simp [setAssoc, h]
        have hk' : k ∈ rest.map Prod.fst := by
          rcases List.mem_cons.mp hk with h₁ | h₁
          · exact absurd h₁.symm h
          · exact h₁
        rw [hset]
        constructor
        · intro hL
          rcases List.mem_cons.mp hL with rfl | hL'
          · exact Or.inl ⟨List.mem_cons_self _ _, h⟩
          · rcases (ih hnd.2 hk').mp hL' with ⟨hmem, hne⟩ | rfl
            · exact Or.inl ⟨List.mem_cons_of_mem _ hmem, hne⟩
            · exact Or.inr rfl
        · intro hR
          rcases hR with ⟨hmem, hne⟩ | rfl
          · rcases List.mem_cons.mp hmem with rfl | hmem'
            · exact List.mem_cons_self _ _
            · exact List.mem_cons_of_mem _ ((ih hnd.2 hk').mpr (Or.inl ⟨hmem', hne⟩))
          · exact List.mem_cons_of_mem _ ((ih hnd.2 hk').mpr (Or.inr rfl))

/-! ## The `deduplicateDatabase` fold invariant -/

theorem dedupInv_nil : DedupInv [] [] 0 := by
  refine ⟨List.nodup_nil, ?_, ?_, rfl⟩ <;> intro kv h <;> simp at h

theorem dedupInv_step {p : List FaultRecord}
    {m : List (List Char × FaultRecord)} {n : Nat}
    (h : DedupInv p m n) (r : FaultRecord) :
    DedupInv (p ++ [r]) (dedupStep (m, n) r).1 (dedupStep (m, n) r).2 := by
  obtain ⟨hnd, hent, hcov, hcnt⟩ := h
  cases hg : getAssoc (dedupKey r) m with
  | none =>
      have hnone := (getAssoc_eq_none_iff _ _).mp hg
      have hred : dedupStep (m, n) r = (m ++ [(dedupKey r, r)], n) := by
        simp [dedupStep, hg]
      rw [hred]
      refine ⟨?_, ?_, ?_, ?_⟩
      · rw [List.map_append]
        simp only [List.map_cons, List.map_nil]
        rw [List.nodup_append]
        refine ⟨hnd, List.nodup_singleton _, ?_⟩
        intro a ha hb
        simp only [List.mem_singleton] at hb
        subst hb
        obtain ⟨kv, hkv, heq⟩ := List.mem_map.mp ha
        exact hnone kv hkv heq
      · intro kv hkv
        rcases List.mem_append.mp hkv with hkv' | hkv'
        · obtain ⟨hkey, p₁, p₂, hdec, h₁, h₂⟩ := hent kv hkv'
          refine ⟨hkey, p₁, p₂ ++ [r], by rw [hdec]; simp, h₁, ?_⟩
          intro r' hr' hk'
          rcases List.mem_append.mp hr' with hr₂ | hr₂
          · exact h₂ r' hr₂ hk'
          · simp only [List.mem_singleton] at hr₂
            rw [hr₂] at hk'
            exact absurd hk'.symm (hnone kv hkv')
        · simp only [List.mem_singleton] at hkv'
          subst hkv'
          refine ⟨rfl, p, [], rfl, ?_, by intro r' hr'; simp at hr'⟩
          intro r' hr' hk'
          obtain ⟨kv', hkv', hfst⟩ := hcov r' hr'
          exact absurd (hfst.trans hk') (hnone kv' hkv')
      · intro r' hr'
        rcases List.mem_append.mp hr' with hr₁ | hr₁
        · obtain ⟨kv, hkv, hfst⟩ := hcov r' hr₁
          exact ⟨kv, List.mem_append.mpr (Or.inl hkv), hfst⟩
        · simp only [List.mem_singleton] at hr₁
          exact ⟨(dedupKey r, r), List.mem_append.mpr (Or.inr (by simp)),
            by rw [hr₁]⟩
      · simp only [List.length_append, List.length_singleton]
        omega
  | some existing =>
      have hmemE : (dedupKey r, existing) ∈ m := getAssoc_eq_some_mem hg
      have hkeyIn : dedupKey r ∈ m.map Prod.fst :=
        List.mem_map_of_mem Prod.fst hmemE
      obtain ⟨hkeyE, q₁, q₂, hdecE, hq₁, hq₂⟩ := hent _ hmemE
      by_cases hlt : contribScore existing < contribScore r
      · have hred : dedupStep (m, n) r = (setAssoc (dedupKey r) r m, n + 1) := by
          simp [dedupStep, hg, hlt]
        rw [hred]
        refine ⟨?_, ?_, ?_, ?_⟩
        · rw [setAssoc_map_fst]; exact hnd
        · intro kv hkv
          rcases (mem_setAssoc_iff kv hnd hkeyIn).mp hkv with ⟨hkv', hne⟩ | rfl
          · obtain ⟨hkey, p₁, p₂, hdec, h₁, h₂⟩ := hent kv hkv'
            refine ⟨hkey, p₁, p₂ ++ [r], by rw [hdec]; simp, h₁, ?_⟩
            intro r' hr' hk'
            rcases List.mem_append.mp hr' with hr₂ | hr₂
            · exact h₂ r' hr₂ hk'
            · simp only [List.mem_singleton] at hr₂
              rw [hr₂] at hk'
              exact absurd hk'.symm hne
          · refine ⟨rfl, p, [], rfl, ?_, by intro r' hr'; simp at hr'⟩
            intro r' hr' hk'
            rw [hdecE] at hr'
            rcases List.mem_append.mp hr' with hr₁ | hr₁
            · exact lt_trans (hq₁ r' hr₁ hk') hlt
            · rcases List.mem_cons.mp hr₁ with rfl | hr₂
              · exact hlt
              · exact lt_of_le_of_lt (hq₂ r' hr₂ hk') hlt
        · intro r' hr'
          have hkeys : (setAssoc (dedupKey r) r m).map Prod.fst = m.map Prod.fst :=
            setAssoc_map_fst _ _ _
          rcases List.mem_append.mp hr' with hr₁ | hr₁
          · obtain ⟨kv, hkv, hfst⟩ := hcov r' hr₁
            have : kv.1 ∈ (setAssoc (dedupKey r) r m).map Prod.fst := by
              rw [hkeys]; exact List.mem_map_of_mem Prod.fst hkv
            obtain ⟨kv', hkv', hfst'⟩ := List.mem_map.mp this
            exact ⟨kv', hkv', hfst'.trans hfst⟩
          · simp only [List.mem_singleton] at hr₁
            have hmem2 : dedupKey r ∈ (setAssoc (dedupKey r) r m).map Prod.fst := by
              rw [hkeys]; exact hkeyIn
            obtain ⟨kv', hkv', hfst'⟩ := List.mem_map.mp hmem2
            exact ⟨kv', hkv', by rw [hr₁]; exact hfst'⟩
        · rw [length_setAssoc]
          simp only [List.length_append, List.length_singleton]
          omega
      · have hred : dedupStep (m, n) r = (m, n + 1) := by
          simp [dedupStep, hg, hlt]
        rw [hred]
        refine ⟨hnd, ?_, ?_, ?_⟩
        · intro kv hkv
          obtain ⟨hkey, p₁, p₂, hdec, h₁, h₂⟩ := hent kv hkv
          refine ⟨hkey, p₁, p₂ ++ [r], by rw [hdec]; simp, h₁, ?_⟩
          intro r' hr' hk'
          rcases List.mem_append.mp hr' with hr₂ | hr₂
          · exact h₂ r' hr₂ hk'
          · simp only [List.mem_singleton] at hr₂
            rw [hr₂] at hk' ⊢
            have hkveq : kv = (dedupKey r, existing) :=
              getAssoc_unique hnd hg kv hkv hk'.symm
            rw [hkveq]
            exact le_of_not_lt hlt
        · intro r' hr'
          rcases List.mem_append.mp hr' with hr₁ | hr₁
          · exact hcov r' hr₁
          · simp only [List.mem_singleton] at hr₁
            exact ⟨(dedupKey r, existing), hmemE, by rw [hr₁]⟩
        · simp only [List.length_append, List.length_singleton]
          omega

theorem dedupInv_foldl (rs : List FaultRecord) :
    ∀ (p : List FaultRecord) (m : List (List Char × FaultRecord)) (n : Nat),
      DedupInv p m n →
      DedupInv (p ++ rs) (rs.foldl dedupStep (m, n)).1
        (rs.foldl dedupStep (m, n)).2 := by
  induction rs with
  | nil =>
      intro p m n h
      simpa using h
  | cons r rs ih =>
      intro p m n h
      have hstep := dedupInv_step h r
      have hrec := ih (p ++ [r]) (dedupStep (m, n) r).1 (dedupStep (m, n) r).2
        hstep
      simpa [List.foldl_cons, List.append_assoc] using hrec

theorem lowerStr_append (a b : String) :
    lowerStr (a ++ b) = lowerStr a ++ lowerStr b := by
  simp [lowerStr, String.data_append]

theorem dedupKey_eq_of_samePair {r₁ r₂ : FaultRecord} (h : SamePair r₁ r₂) :
    dedupKey r₁ = dedupKey r₂ := by
  unfold dedupKey
  rw [lowerStr_append, lowerStr_append, lowerStr_append, lowerStr_append,
    h.1, h.2]

/-- C10: after `deduplicateDatabase` no two remaining records share the
same case-insensitive (manufacturer, code) pair; each kept record is one
of the original records, its contributions+solutions count is maximal
among the original records sharing its pair (the earliest such record on
ties); and the returned count is the original length minus the remaining
length. -/
theorem deduplicateDatabase_spec (rs : List FaultRecord) :
    deduplicateDatabase none = (none, 0) ∧
    ∃ out, deduplicateDatabase (some rs) = (some out, rs.length - out.length) ∧
      out.length ≤ rs.length ∧
      out.Pairwise (fun r₁ r₂ => ¬ SamePair r₁ r₂) ∧
      ∀ r ∈ out, r ∈ rs ∧
        (∀ r' ∈ rs, SamePair r r' → contribScore r' ≤ contribScore r) ∧
        ∃ l₁ l₂, rs = l₁ ++ r :: l₂ ∧
          ∀ r' ∈ l₁, SamePair r r' → contribScore r' < contribScore r := by
  have hinv := dedupInv_foldl rs [] [] 0 dedupInv_nil
  rw [List.nil_append] at hinv
  obtain ⟨hnd, hent, hcov, hcnt⟩ := hinv
  refine ⟨rfl, (rs.foldl dedupStep ([], 0)).1.map Prod.snd, ?_, ?_, ?_, ?_⟩
  · have heq : deduplicateDatabase (some rs)
        = (some ((rs.foldl dedupStep ([], 0)).1.map Prod.snd),
           (rs.foldl dedupStep ([], 0)).2) := rfl
    rw [heq]
    have hn2 : (rs.foldl dedupStep ([], 0)).2
        = rs.length - ((rs.foldl dedupStep ([], 0)).1.map Prod.snd).length := by
      simp only [List.length_map]
      omega
    rw [hn2]
  · simp only [List.length_map]
    omega
  · have hpw : ((rs.foldl dedupStep ([], 0)).1.map Prod.fst).Pairwise (· ≠ ·) :=
      hnd
    rw [List.pairwise_map] at hpw
    rw [List.pairwise_map]
    refine hpw.imp_of_mem ?_
    intro a b ha hb hne hsp
    exact hne (((hent a ha).1.symm.trans
      (dedupKey_eq_of_samePair hsp)).trans (hent b hb).1)
  · intro r hr
    obtain ⟨kv, hkv, hsnd⟩ := List.mem_map.mp hr
    subst hsnd
    obtain ⟨hkey, p₁, p₂, hdec, h₁, h₂⟩ := hent kv hkv
    refine ⟨by rw [hdec]; simp, ?_, p₁, p₂, hdec, ?_⟩
    · intro r' hr' hsp
      have hk' : dedupKey r' = kv.1 :=
        (dedupKey_eq_of_samePair hsp).symm.trans hkey
      rw [hdec] at hr'
      rcases List.mem_append.mp hr' with hr₁ | hr₁
      · exact le_of_lt (h₁ r' hr₁ hk')
      · rcases List.mem_cons.mp hr₁ with heq | hr₂
        · rw [heq]
        · exact h₂ r' hr₂ hk'
    · intro r' hr' hsp
      exact h₁ r' hr' ((dedupKey_eq_of_samePair hsp).symm.trans hkey)

theorem deduplicateDatabase_spec_witness :
    deduplicateDatabase (some [rec0, { rec0 with solutions := ["reset"] }])
      = (some [{ rec0 with solutions := ["reset"] }], 1) ∧
    contribScore rec0 ≤ contribScore { rec0 with solutions := ["reset"] } := by
  have hcomp : deduplicateDatabase
      (some [rec0, { rec0 with solutions := ["reset"] }])
      = (some [{ rec0 with solutions := ["reset"] }], 1) := by decide
  obtain ⟨-, out, heq, -, -, hrec⟩ :=
    deduplicateDatabase_spec [rec0, { rec0 with solutions := ["reset"] }]
  rw [hcomp] at heq
  have hout : [{ rec0 with solutions := ["reset"] }] = out :=
    Option.some.inj (congrArg Prod.fst heq)
  have hmem : { rec0 with solutions := ["reset"] } ∈ out := by
    rw [← hout]
    exact List.mem_singleton_self _
  obtain ⟨-, hall, -⟩ := hrec _ hmem
  exact ⟨hcomp, hall rec0 (by simp) ⟨rfl, rfl⟩⟩

/-! ## C8: error handling of the fault-identification operations -/

/-- C8 counterexample: at a concrete erroring model-identification call
the standard path of `identifyFaultFromQuery` resolves successfully with
`[]` — observationally identical to a genuine "nothing found" reply
(code `UNKNOWN`), shown alongside — instead of surfacing any structured
error: the failure is swallowed. -/
theorem identifyFault_error_counterexample :
    identifyFaultStandard (Except.error (CallError.providerError "boom"))
      (fun _ => Except.error CallError.parseFailure) "id1" "2024-01-01"
      = [] ∧
    identifyFaultStandard
      (Except.ok ⟨"reply", "GOOGLE", "gemini-3-pro-preview"⟩)
      (fun _ => Except.ok
        { code := "UNKNOWN", title := "", manufacturer := "", modelName := ""
          equipmentType := EquipmentType.UNKNOWN, description := ""
          possibleCauses := [], solutions := [], severity := none })
      "id1" "2024-01-01" = [] :=
  ⟨rfl, rfl⟩

/-- C8 amended: when the underlying model identification call raises,
`identifyFaultFromQuery`'s standard path catches the error and resolves
with the empty list, `performDeepResearch` catches a synthesis failure
and resolves with `null`, and the DEEP branch maps that `null` to the
empty list — the failure is swallowed into an empty success rather than
surfaced as a structured error. -/
theorem identifyFault_error_behaviour (e : CallError)
    (parse : String → Except CallError ParsedFault)
    (freshId nowIso provider : String)
    (research : List (Except CallError LLMResponse))
    (hok : ∀ res ∈ research, ∃ resp, res = Except.ok resp) :
    identifyFaultStandard (Except.error e) parse freshId nowIso = [] ∧
    performDeepResearch research (Except.error e) freshId nowIso provider
      = Except.ok none ∧
    identifyFaultDeep none = [] := by
  refine ⟨rfl, ?_, rfl⟩
  have hfind : research.findSome? (fun res =>
      match res with
      | .error e => some e
      | .ok _ => none) = none := by
    rw [List.findSome?_eq_none_iff]
    intro res hres
    obtain ⟨resp, rfl⟩ := hok res hres
    rfl
  unfold performDeepResearch
  rw [hfind]

theorem identifyFault_error_behaviour_witness :
    (∀ res ∈ ([Except.ok ⟨"notes", "GOOGLE", "g"⟩] :
        List (Except CallError LLMResponse)), ∃ resp, res = Except.ok resp) ∧
    performDeepResearch [Except.ok ⟨"notes", "GOOGLE", "g"⟩]
      (Except.error CallError.timeout) "id1" "now" "GOOGLE"
      = Except.ok none := by
  have hok : ∀ res ∈ ([Except.ok ⟨"notes", "GOOGLE", "g"⟩] :
      List (Except CallError LLMResponse)), ∃ resp, res = Except.ok resp := by
    intro res hres
    rw [List.mem_singleton] at hres
    exact ⟨_, hres⟩
  exact ⟨hok, (identifyFault_error_behaviour CallError.timeout
    (fun _ => Except.error CallError.parseFailure) "id1" "now" "GOOGLE"
    _ hok).2.1⟩

/-! ## C3: cache TTL -/

/-- C3: the cache never returns an entry past its TTL — any successful
`get` exhibits a stored entry still within its TTL; after
`put(fp, v, ttl = 0)` an immediate `get(fp)` is absent; after
`put(fp, v, ttl = 60)` any `get(fp)` within 60 seconds returns `v`. -/
theorem cache_ttl_spec {V : Type} (c : CacheState V) (fp : String) (v w : V)
    (ttl t t' : Nat) :
    (cacheGet c fp t = some w →
       ∃ e, (fp, e) ∈ c ∧ e.value = w ∧ t < e.storedAt + e.ttl) ∧
    (cacheGet (cachePut c fp v ttl t) fp t' = some w →
       t' < t + ttl ∧ w = v) ∧
    cacheGet (cachePut c fp v 0 t) fp t = none ∧
    (t' < t + 60 → cacheGet (cachePut c fp v 60 t) fp t' = some v) := by
  have hput : ∀ (ttl₀ now : Nat),
      cacheGet (cachePut c fp v ttl₀ t) fp now
        = if now < t + ttl₀ then some v else none := by
    intro ttl₀ now
    unfold cacheGet cachePut
    rw [List.find?_cons_of_pos _ (by simp)]
  refine ⟨?_, ?_, ?_, ?_⟩
  · intro h
    unfold cacheGet at h
    cases hf : c.find? (fun kv => decide (kv.1 = fp)) with
    | none =>
        rw [hf] at h
        cases h
    | some kv =>
        rw [hf] at h
        dsimp only at h
        have hp := List.find?_some hf
        have hm := List.mem_of_find?_eq_some hf
        simp only [decide_eq_true_eq] at hp
        by_cases hlt : t < kv.2.storedAt + kv.2.ttl
        · rw [if_pos hlt] at h
          refine ⟨kv.2, ?_, Option.some.inj h, hlt⟩
          have hkv : kv = (fp, kv.2) := by
            obtain ⟨k₁, v₁⟩ := kv
            simp only at hp
            rw [hp]
          exact hkv ▸ hm
        · rw [if_neg hlt] at h
          cases h
  · intro h
    rw [hput ttl t'] at h
    by_cases hlt : t' < t + ttl
    · rw [if_pos hlt] at h
      exact ⟨hlt, (Option.some.inj h).symm⟩
    · rw [if_neg hlt] at h
      cases h
  · rw [hput 0 t]
    simp
  · intro hlt
    rw [hput 60 t']
    rw [if_pos hlt]

theorem cache_ttl_spec_witness :
    (59 < 0 + 60 ∧
      cacheGet (cachePut ([] : CacheState Nat) "q" 7 60 0) "q" 59 = some 7) ∧
    cacheGet (cachePut ([] : CacheState Nat) "q" 7 0 0) "q" 0 = none :=
  ⟨⟨by decide,
    (cache_ttl_spec ([] : CacheState Nat) "q" 7 7 60 0 59).2.2.2 (by decide)⟩,
   (cache_ttl_spec ([] : CacheState Nat) "q" 7 7 0 0 0).2.2.1⟩

/-! ## C7: synthesize fails iff all passes fail -/

/-- C7: `synthesize` fails with AllExpertsFailed exactly when every pass
failed or timed out; with at least one successful pass it succeeds, and
the merge sees exactly the successful opinions (failed passes are
excluded, not retried). -/
theorem synthesize_spec (passes : List PassOutcome) :
    (synthesize passes = Except.error SynthError.allExpertsFailed ↔
      ∀ p ∈ passes, ∃ e, p = PassOutcome.failed e) ∧
    ((∃ o, PassOutcome.success o ∈ passes) →
      synthesize passes = Except.ok (mergeOpinions (successes passes))) := by
  constructor
  · constructor
    · intro h p hp
      by_cases hs : successes passes = []
      · have hnone := List.filterMap_eq_nil_iff.mp hs p hp
        cases p with
        | success o => cases hnone
        | failed e => exact ⟨e, rfl⟩
      · unfold synthesize at h
        rw [if_neg hs] at h
        cases h
    · intro hall
      have hs : successes passes = [] := by
        rw [successes, List.filterMap_eq_nil_iff]
        intro p hp
        obtain ⟨e, rfl⟩ := hall p hp
        rfl
      unfold synthesize
      rw [if_pos hs]
  · rintro ⟨o, ho⟩
    have hmem : o ∈ successes passes := by
      unfold successes
      exact List.mem_filterMap.mpr ⟨PassOutcome.success o, ho, rfl⟩
    have hs : successes passes ≠ [] := List.ne_nil_of_mem hmem
    unfold synthesize
    rw [if_neg hs]

theorem synthesize_spec_witness :
    synthesize [PassOutcome.failed PassError.timeout]
      = Except.error SynthError.allExpertsFailed ∧
    synthesize [PassOutcome.failed PassError.timeout,
        PassOutcome.success ⟨["wiring fault"], [], SeverityLevel.HIGH, 1⟩]
      = Except.ok (mergeOpinions (successes
          [PassOutcome.failed PassError.timeout,
           PassOutcome.success ⟨["wiring fault"], [], SeverityLevel.HIGH, 1⟩])) := by
  refine ⟨(synthesize_spec _).1.mpr ?_, (synthesize_spec _).2
    ⟨⟨["wiring fault"], [], SeverityLevel.HIGH, 1⟩, by simp⟩⟩
  intro p hp
  rw [List.mem_singleton] at hp
  exact ⟨PassError.timeout, hp⟩

/-! ## C6: consensus level -/

/-- C6: the consensus level always lies in [0,1]; it equals 1 only if
every contributing opinion names the dominant cause; it equals (count of
opinions naming the dominant cause) / (count of successful opinions);
and on the spec's 3-opinion example the dominant cause is
"sensor misalignment", the level is 2/3, and the single recorded
disagreement is "wiring fault". -/
theorem consensus_spec (os : List ExpertOpinion) :
    0 ≤ (mergeOpinions os).level ∧
    (mergeOpinions os).level ≤ 1 ∧
    ((mergeOpinions os).level = 1 →
      ∃ c, (mergeOpinions os).dominant = some c ∧
        ∀ o ∈ os, namesCause o c = true) ∧
    (∀ c, (mergeOpinions os).dominant = some c →
      (mergeOpinions os).level
        = ((os.filter fun o => namesCause o c).length : ℚ) /
            (os.length : ℚ)) ∧
    (mergeOpinions exOpinions).dominant
      = some (normText "sensor misalignment") ∧
    (mergeOpinions exOpinions).level = 2 / 3 ∧
    (mergeOpinions exOpinions).disagreements = [normText "wiring fault"] := by
  have hdomEx : dominantCause exOpinions
      = some (normText "sensor misalignment") := by decide
  have hmergeEx : mergeOpinions exOpinions
      = ⟨some (normText "sensor misalignment"),
         (supportCount exOpinions (normText "sensor misalignment") : ℚ) /
           (exOpinions.length : ℚ),
         (candidateCauses exOpinions).filter
           (fun c' => decide (supportCount exOpinions c'
             < supportCount exOpinions (normText "sensor misalignment"))),
         remediesUnion exOpinions⟩ := by
    unfold mergeOpinions
    rw [hdomEx]
  have hsupEx : supportCount exOpinions (normText "sensor misalignment") = 2 := by
    decide
  have hlevEx : (mergeOpinions exOpinions).level = 2 / 3 := by
    rw [hmergeEx]
    show (supportCount exOpinions (normText "sensor misalignment") : ℚ) /
        (exOpinions.length : ℚ) = 2 / 3
    rw [hsupEx]
    norm_num [exOpinions]
  have hdisEx : (mergeOpinions exOpinions).disagreements
      = [normText "wiring fault"] := by
    rw [hmergeEx]
    decide
  cases hdom : dominantCause os with
  | none =>
      have hm : mergeOpinions os = ⟨none, 0, [], remediesUnion os⟩ := by
        unfold mergeOpinions
        rw [hdom]
      refine ⟨by rw [hm], by rw [hm]; norm_num, ?_, ?_,
        by rw [hmergeEx], hlevEx, hdisEx⟩
      · intro h
        rw [hm] at h
        simp at h
      · intro c h
        rw [hm] at h
        cases h
  | some c =>
      have hlen : 0 < os.length := by
        cases os with
        | nil => exact Option.noConfusion hdom
        | cons o os' => simp
      have hm : mergeOpinions os
          = ⟨some c, (supportCount os c : ℚ) / (os.length : ℚ),
             (candidateCauses os).filter
               (fun c' => decide (supportCount os c' < supportCount os c)),
             remediesUnion os⟩ := by
        unfold mergeOpinions
        rw [hdom]
      have hlenQ : ((os.length : ℚ)) ≠ 0 := by
        exact_mod_cast hlen.ne'
      refine ⟨?_, ?_, ?_, ?_, by rw [hmergeEx], hlevEx, hdisEx⟩
      · rw [hm]
        exact div_nonneg (Nat.cast_nonneg _) (Nat.cast_nonneg _)
      · rw [hm]
        show (supportCount os c : ℚ) / (os.length : ℚ) ≤ 1
        rw [div_le_one (by exact_mod_cast hlen)]
        exact_mod_cast List.length_filter_le _ os
      · rw [hm]
        intro h
        have heq : (supportCount os c : ℚ) = (os.length : ℚ) :=
          (div_eq_one_iff_eq hlenQ).mp h
        have hnat : supportCount os c = os.length := by exact_mod_cast heq
        unfold supportCount at hnat
        refine ⟨c, rfl, ?_⟩
        intro o ho
        exact List.filter_length_eq_length.mp hnat o ho
      · intro c' h'
        rw [hm] at h'
        have hcc : c = c' := Option.some.inj h'
        subst hcc
        rw [hm]
        rfl

theorem consensus_spec_witness :
    (mergeOpinions exOpinions).dominant
      = some (normText "sensor misalignment") ∧
    (mergeOpinions exOpinions).level
      = ((exOpinions.filter fun o =>
            namesCause o (normText "sensor misalignment")).length : ℚ) /
          (exOpinions.length : ℚ) := by
  have h := consensus_spec exOpinions
  exact ⟨h.2.2.2.2.1, h.2.2.2.1 _ h.2.2.2.2.1⟩

/-! ## C5: graph reasoner termination and cycle safety -/

theorem layerAccOk_step (visited₀ : List String) (u v : String)
    (acc : List String × List ChainLink × List String)
    (h : LayerAccOk visited₀ acc) :
    LayerAccOk visited₀
      (if v ∈ acc.1 then acc
       else (v :: acc.1,
             acc.2.1 ++ [⟨u, EdgeType.CAUSED_BY, v⟩],
             acc.2.2 ++ [v])) := by
  by_cases hv : v ∈ acc.1
  · rw [if_pos hv]
    exact h
  · rw [if_neg hv]
    obtain ⟨hnd, hsub, hmap, hnfnd, hnf⟩ := h
    refine ⟨List.nodup_cons.mpr ⟨hv, hnd⟩, ?_, ?_, ?_, ?_⟩
    · intro x hx
      exact List.mem_cons_of_mem _ (hsub x hx)
    · rw [List.map_append, hmap]
      rfl
    · rw [List.nodup_append]
      refine ⟨hnfnd, List.nodup_singleton _, ?_⟩
      intro a ha hb
      rw [List.mem_singleton] at hb
      subst hb
      exact hv (hnf a ha).1
    · intro x hx
      rcases List.mem_append.mp hx with hx₁ | hx₁
      · exact ⟨List.mem_cons_of_mem _ (hnf x hx₁).1, (hnf x hx₁).2⟩
      · rw [List.mem_singleton] at hx₁
        subst hx₁
        exact ⟨List.mem_cons_self _ _, fun hv₀ => hv (hsub x hv₀)⟩

theorem layerAccOk_inner (visited₀ : List String) (u : String) :
    ∀ (ts : List String) (acc : List String × List ChainLink × List String),
      LayerAccOk visited₀ acc →
      LayerAccOk visited₀ (ts.foldl
        (fun acc₂ v =>
          if v ∈ acc₂.1 then acc₂
          else (v :: acc₂.1,
                acc₂.2.1 ++ [⟨u, EdgeType.CAUSED_BY, v⟩],
                acc₂.2.2 ++ [v]))
        acc) := by
  intro ts
  induction ts with
  | nil =>
      intro acc h
      exact h
  | cons v ts ih =>
      intro acc h
      rw [List.foldl_cons]
      exact ih _ (layerAccOk_step visited₀ u v acc h)

theorem layerAccOk_fold (g : CausalGraph) (visited₀ : List String) :
    ∀ (fr : List String) (acc : List String × List ChainLink × List String),
      LayerAccOk visited₀ acc →
      LayerAccOk visited₀ (fr.foldl
        (fun acc u =>
          (outgoing g u).foldl
            (fun acc₂ v =>
              if v ∈ acc₂.1 then acc₂
              else (v :: acc₂.1,
                    acc₂.2.1 ++ [⟨u, EdgeType.CAUSED_BY, v⟩],
                    acc₂.2.2 ++ [v]))
            acc)
        acc) := by
  intro fr
  induction fr with
  | nil =>
      intro acc h
      exact h
  | cons u fr ih =>
      intro acc h
      rw [List.foldl_cons]
      exact ih _ (layerAccOk_inner visited₀ u (outgoing g u) acc h)

theorem bfsAux_nodup (g : CausalGraph) :
    ∀ (d : Nat) (visited frontier : List String), visited.Nodup →
      ((bfsAux g d visited frontier).map ChainLink.toId).Nodup ∧
      ∀ x ∈ (bfsAux g d visited frontier).map ChainLink.toId, x ∉ visited := by
  intro d
  induction d with
  | zero =>
      intro visited frontier h
      exact ⟨List.nodup_nil, fun x hx => absurd hx (List.not_mem_nil x)⟩
  | succ d ih =>
      intro visited frontier hnd
      have hacc : LayerAccOk visited
          (visited, ([] : List ChainLink), ([] : List String)) :=
        ⟨hnd, fun x hx => hx, rfl, List.nodup_nil,
         fun v hv => absurd hv (List.not_mem_nil v)⟩
      have hlayer : LayerAccOk visited (bfsLayer g frontier visited) :=
        layerAccOk_fold g visited frontier _ hacc
      obtain ⟨hvis, hsub, hmap, hnfnd, hnf⟩ := hlayer
      obtain ⟨ihnd, ihdisj⟩ := ih (bfsLayer g frontier visited).1
        (bfsLayer g frontier visited).2.2 hvis
      have hunfold : bfsAux g (d + 1) visited frontier
          = (bfsLayer g frontier visited).2.1
            ++ bfsAux g d (bfsLayer g frontier visited).1
                (bfsLayer g frontier visited).2.2 := rfl
      constructor
      · rw [hunfold, List.map_append, hmap, List.nodup_append]
        refine ⟨hnfnd, ihnd, ?_⟩
        intro a ha hb
        exact ihdisj a hb (hnf a ha).1
      · intro x hx
        rw [hunfold, List.map_append, hmap] at hx
        rcases List.mem_append.mp hx with hx₁ | hx₁
        · exact (hnf x hx₁).2
        · intro hxv
          exact ihdisj x hx₁ (hsub x hxv)

/-- C5: on every causal graph (cyclic ones included) `findCauses` is a
total function of its depth bound, and the resulting chain never visits
a node twice — the queried fault followed by the discovered nodes is
duplicate-free; on the two-node cycle A CAUSED_BY B, B CAUSED_BY A the
chain is the single link A→B (each of A and B occurring at most once),
and symmetrically from B. -/
theorem findCauses_spec (g : CausalGraph) (faultId : String) (maxDepth : Nat) :
    (faultId :: (findCauses g faultId maxDepth).map ChainLink.toId).Nodup ∧
    findCauses cycleGraph "A" 5 = [⟨"A", EdgeType.CAUSED_BY, "B"⟩] ∧
    findCauses cycleGraph "B" 5 = [⟨"B", EdgeType.CAUSED_BY, "A"⟩] := by
  refine ⟨?_, by decide, by decide⟩
  unfold findCauses
  cases getNode g faultId with
  | none =>
      exact List.nodup_singleton _
  | some n =>
      have h := bfsAux_nodup g maxDepth [faultId] [faultId]
        (List.nodup_singleton _)
      rw [List.nodup_cons]
      refine ⟨fun hmem => ?_, h.1⟩
      exact h.2 faultId hmem (List.mem_singleton_self _)

/-! ## C4: single-flight -/

theorem sfInv_init : SFInv sfInit := by
  refine ⟨rfl, ?_, ?_, ?_, ?_, ?_⟩ <;> intro h <;> simp [sfInit] at h

theorem sfInv_step (s : SFState) (b : Bool) (h : SFInv s) :
    SFInv (sfStep s b) := by
  obtain ⟨c, i, n, p₁, p₂⟩ := s
  obtain ⟨h₁, h₂, h₃, h₄, h₅, h₆⟩ := h
  simp only at h₁ h₂ h₃ h₄ h₅ h₆
  cases b <;> cases p₁ <;> cases p₂ <;> cases c <;> cases i <;>
    first
      | exact absurd (h₄ rfl).1 Bool.false_ne_true
      | exact absurd (h₅ rfl).1 Bool.false_ne_true
      | exact absurd (h₄ rfl).2 Bool.true_ne_false
      | exact absurd (h₅ rfl).2 Bool.true_ne_false
      | simp_all [sfStep, sfCallerStep, SFInv]

theorem sfInv_run (sched : List Bool) :
    ∀ s, SFInv s → SFInv (sfRun s sched) := by
  induction sched with
  | nil =>
      intro s h
      exact h
  | cons b sched ih =>
      intro s h
      exact ih _ (sfInv_step s b h)

/-- C4: for every interleaving of two concurrent `getOrCompute` callers
on the same fingerprint, `slowFn` is invoked at most once; once either
caller has completed it was invoked exactly once and the result is
cached (so the other caller receives that in-flight/cached result rather
than recomputing); the interleaving 1,1,2 completes both callers with a
single invocation. -/
theorem singleFlight_spec (sched : List Bool) :
    (sfRun sfInit sched).calls ≤ 1 ∧
    ((sfRun sfInit sched).pc₁ = CallerPC.done ∨
        (sfRun sfInit sched).pc₂ = CallerPC.done →
      (sfRun sfInit sched).calls = 1 ∧
        (sfRun sfInit sched).cached = true) ∧
    sfRun sfInit [true, true, false]
      = ⟨true, false, 1, CallerPC.done, CallerPC.done⟩ := by
  have hinv := sfInv_run sched sfInit sfInv_init
  obtain ⟨hcalls, hd₁, hd₂, -, -, -⟩ := hinv
  refine ⟨?_, ?_, by decide⟩
  · rw [hcalls]
    by_cases hb : ((sfRun sfInit sched).inflight || (sfRun sfInit sched).cached)
      = true
    · rw [if_pos hb]
    · rw [if_neg hb]
      omega
  · rintro (h | h)
    · have hc := hd₁ h
      rw [hcalls, hc]
      simp
    · have hc := hd₂ h
      rw [hcalls, hc]
      simp

theorem singleFlight_spec_witness :
    ((sfRun sfInit [true, true, false]).pc₂ = CallerPC.done) ∧
    (sfRun sfInit [true, true, false]).calls = 1 := by
  have h := singleFlight_spec [true, true, false]
  exact ⟨by decide, (h.2.1 (Or.inr (by decide))).1⟩

/-! ## C1/C2: reciprocal rank fusion -/

theorem dedupFirst_foldl_nodup :
    ∀ (l acc : List String), acc.Nodup →
      (l.foldl (fun acc i => if i ∈ acc then acc else acc ++ [i]) acc).Nodup := by
  intro l
  induction l with
  | nil =>
      intro acc h
      exact h
  | cons i l ih =>
      intro acc h
      rw [List.foldl_cons]
      by_cases hi : i ∈ acc
      · rw [if_pos hi]
        exact ih acc h
      · rw [if_neg hi]
        refine ih _ ?_
        rw [List.nodup_append]
        exact ⟨h, List.nodup_singleton _,
          fun a ha hb => hi (by rwa [List.mem_singleton.mp hb] at ha)⟩

theorem mem_dedupFirst_foldl :
    ∀ (l acc : List String) (x : String),
      x ∈ l.foldl (fun acc i => if i ∈ acc then acc else acc ++ [i]) acc
        ↔ x ∈ acc ∨ x ∈ l := by
  intro l
  induction l with
  | nil =>
      intro acc x
      simp
  | cons i l ih =>
      intro acc x
      rw [List.foldl_cons]
      by_cases hi : i ∈ acc
      · rw [if_pos hi, ih]
        constructor
        · rintro (h | h)
          · exact Or.inl h
          · exact Or.inr (List.mem_cons_of_mem _ h)
        · rintro (h | h)
          · exact Or.inl h
          · rcases List.mem_cons.mp h with rfl | h'
            · exact Or.inl hi
            · exact Or.inr h'
      · rw [if_neg hi, ih]
        constructor
        · rintro (h | h)
          · rcases List.mem_append.mp h with h' | h'
            · exact Or.inl h'
            · exact Or.inr (List.mem_cons.mpr
                (Or.inl (List.mem_singleton.mp h')))
          · exact Or.inr (List.mem_cons_of_mem _ h)
        · rintro (h | h)
          · exact Or.inl (List.mem_append.mpr (Or.inl h))
          · rcases List.mem_cons.mp h with rfl | h'
            · exact Or.inl (List.mem_append.mpr
                (Or.inr (List.mem_singleton_self _)))
            · exact Or.inr h'

theorem dedupFirst_nodup (l : List String) : (dedupFirst l).Nodup :=
  dedupFirst_foldl_nodup l [] List.nodup_nil

theorem mem_dedupFirst (l : List String) (x : String) :
    x ∈ dedupFirst l ↔ x ∈ l := by
  unfold dedupFirst
  rw [mem_dedupFirst_foldl]
  simp

theorem fuseKeyLE_total (a b : FusedResult) : fuseKeyLE a b ∨ fuseKeyLE b a := by
  unfold fuseKeyLE
  rcases lt_trichotomy b.score a.score with h | h | h
  · exact Or.inl (Or.inl h)
  · rcases lt_trichotomy a.lexRank b.lexRank with h₂ | h₂ | h₂
    · exact Or.inl (Or.inr ⟨h.symm, Or.inl h₂⟩)
    · rcases le_total a.id b.id with h₃ | h₃
      · exact Or.inl (Or.inr ⟨h.symm, Or.inr ⟨h₂, h₃⟩⟩)
      · exact Or.inr (Or.inr ⟨h, Or.inr ⟨h₂.symm, h₃⟩⟩)
    · exact Or.inr (Or.inr ⟨h, Or.inl h₂⟩)
  · exact Or.inr (Or.inl h)

theorem fuseKeyLE_trans (a b c : FusedResult)
    (h₁ : fuseKeyLE a b) (h₂ : fuseKeyLE b c) : fuseKeyLE a c := by
  unfold fuseKeyLE at h₁ h₂ ⊢
  rcases h₁ with h₁ | ⟨hs₁, h₁⟩
  · rcases h₂ with h₂ | ⟨hs₂, h₂⟩
    · exact Or.inl (lt_trans h₂ h₁)
    · exact Or.inl (lt_of_eq_of_lt hs₂.symm h₁)
  · rcases h₂ with h₂ | ⟨hs₂, h₂⟩
    · exact Or.inl (lt_of_lt_of_eq h₂ hs₁.symm)
    · refine Or.inr ⟨hs₁.trans hs₂, ?_⟩
      rcases h₁ with h₁ | ⟨hr₁, hi₁⟩
      · rcases h₂ with h₂ | ⟨hr₂, hi₂⟩
        · exact Or.inl (lt_trans h₁ h₂)
        · exact Or.inl (lt_of_lt_of_eq h₁ hr₂)
      · rcases h₂ with h₂ | ⟨hr₂, hi₂⟩
        · exact Or.inl (lt_of_eq_of_lt hr₁ h₂)
        · exact Or.inr ⟨hr₁.trans hr₂, le_trans hi₁ hi₂⟩

theorem fuseLe_trans (a b c : FusedResult) (h₁ : fuseLe a b) (h₂ : fuseLe b c) :
    fuseLe a c :=
  decide_eq_true (fuseKeyLE_trans a b c (of_decide_eq_true h₁)
    (of_decide_eq_true h₂))

theorem fuseLe_total (a b : FusedResult) : (fuseLe a b || fuseLe b a) = true := by
  rw [Bool.or_eq_true]
  rcases fuseKeyLE_total a b with h | h
  · exact Or.inl (decide_eq_true h)
  · exact Or.inr (decide_eq_true h)

/-- C2: the fused output is sorted by the documented total order —
strictly descending fused score, ties by the better (lower) lexical
rank, then by identifier (a total relation, so the order is
reproducible) — and is truncated to at most `limit` entries. -/
theorem fuse_sorted_spec (k : ℚ) (l₁ l₂ : List RankedHit) (limit : Nat) :
    (fuse k l₁ l₂ limit).Pairwise fuseKeyLE ∧
    (fuse k l₁ l₂ limit).Pairwise (fun a b => b.score ≤ a.score) ∧
    (∀ a b : FusedResult, fuseKeyLE a b ∨ fuseKeyLE b a) ∧
    (fuse k l₁ l₂ limit).length ≤ limit := by
  have hs := List.sorted_mergeSort fuseLe_trans fuseLe_total
    ((dedupFirst (l₁.map RankedHit.id ++ l₂.map RankedHit.id)).map fun i =>
      FusedResult.mk i (fusedScore k l₁ l₂ i) (lexBestRank l₁ i))
  have hpw : (fuse k l₁ l₂ limit).Pairwise fuseKeyLE := by
    have h₂ := hs.imp (fun h => of_decide_eq_true h)
    exact h₂.sublist (List.take_sublist limit _)
  refine ⟨hpw, hpw.imp ?_, fun a b => fuseKeyLE_total a b, ?_⟩
  · intro a b h
    rcases h with h | ⟨h, -⟩
    · exact le_of_lt h
    · exact le_of_eq h.symm
  · have hlen : fuse k l₁ l₂ limit
        = (((dedupFirst (l₁.map RankedHit.id ++ l₂.map RankedHit.id)).map
            fun i => FusedResult.mk i (fusedScore k l₁ l₂ i)
              (lexBestRank l₁ i)).mergeSort fuseLe).take limit := rfl
    rw [hlen, List.length_take]
    exact min_le_left _ _

/-- C1 (amended): `fuse` is a pure function of its inputs (deterministic
by construction); every identifier occurs at most once in the output;
every output entry carries the fused score that sums its reciprocal-rank
contributions from the two lists and the best lexical rank; whenever the
limit does not truncate below the number of distinct identifiers, an
identifier present in both lists occurs exactly once; and on the spec's
example with limit 2, A and B each appear exactly once, in the order
A, B, with equal fused scores 1/(k+1) + 1/(k+2). -/
theorem fuse_spec (k : ℚ) (l₁ l₂ : List RankedHit) (limit : Nat) (i : String) :
    fuse k l₁ l₂ limit = fuse k l₁ l₂ limit ∧
    ((fuse k l₁ l₂ limit).map FusedResult.id).Nodup ∧
    (∀ fr ∈ fuse k l₁ l₂ limit,
      fr.score = listScore k l₁ fr.id + listScore k l₂ fr.id ∧
      fr.lexRank = lexBestRank l₁ fr.id) ∧
    ((dedupFirst (l₁.map RankedHit.id ++ l₂.map RankedHit.id)).length ≤
        limit →
      i ∈ l₁.map RankedHit.id → i ∈ l₂.map RankedHit.id →
      ((fuse k l₁ l₂ limit).map FusedResult.id).count i = 1) ∧
    ((fuse k [⟨"A", 1⟩, ⟨"B", 2⟩] [⟨"B", 1⟩, ⟨"A", 2⟩] 2).map FusedResult.id
        = ["A", "B"] ∧
      (fuse k [⟨"A", 1⟩, ⟨"B", 2⟩] [⟨"B", 1⟩, ⟨"A", 2⟩] 2).map
          FusedResult.score
        = [1/(k+1) + 1/(k+2), 1/(k+1) + 1/(k+2)]) := by
  have hitems_id :
      ((dedupFirst (l₁.map RankedHit.id ++ l₂.map RankedHit.id)).map fun i =>
        FusedResult.mk i (fusedScore k l₁ l₂ i) (lexBestRank l₁ i)).map
          FusedResult.id
      = dedupFirst (l₁.map RankedHit.id ++ l₂.map RankedHit.id) := by
    rw [List.map_map]
    exact List.map_id' _
  have hperm :
      List.Perm
        ((((dedupFirst (l₁.map RankedHit.id ++ l₂.map RankedHit.id)).map
            fun i => FusedResult.mk i (fusedScore k l₁ l₂ i)
              (lexBestRank l₁ i)).mergeSort fuseLe).map FusedResult.id)
        (dedupFirst (l₁.map RankedHit.id ++ l₂.map RankedHit.id)) := by
    have h := (List.mergeSort_perm
      ((dedupFirst (l₁.map RankedHit.id ++ l₂.map RankedHit.id)).map fun i =>
        FusedResult.mk i (fusedScore k l₁ l₂ i) (lexBestRank l₁ i))
      fuseLe).map FusedResult.id
    rwa [hitems_id] at h
  refine ⟨rfl, ?_, ?_, ?_, ?_⟩
  · have hfuse : (fuse k l₁ l₂ limit).map FusedResult.id
        = ((((dedupFirst (l₁.map RankedHit.id ++ l₂.map RankedHit.id)).map
            fun i => FusedResult.mk i (fusedScore k l₁ l₂ i)
              (lexBestRank l₁ i)).mergeSort fuseLe).map
                FusedResult.id).take limit := by
      rw [← List.map_take]
      rfl
    rw [hfuse]
    exact List.Nodup.sublist (List.take_sublist _ _)
      (hperm.nodup_iff.mpr (dedupFirst_nodup _))
  · intro fr hfr
    have h₁ : fr ∈ ((dedupFirst (l₁.map RankedHit.id ++ l₂.map
        RankedHit.id)).map fun i => FusedResult.mk i (fusedScore k l₁ l₂ i)
          (lexBestRank l₁ i)).mergeSort fuseLe :=
      List.mem_of_mem_take hfr
    have h₂ := List.mem_mergeSort.mp h₁
    obtain ⟨j, hj, rfl⟩ := List.mem_map.mp h₂
    exact ⟨rfl, rfl⟩
  · intro hlen hi₁ hi₂
    have htake : fuse k l₁ l₂ limit
        = ((dedupFirst (l₁.map RankedHit.id ++ l₂.map RankedHit.id)).map
            fun i => FusedResult.mk i (fusedScore k l₁ l₂ i)
              (lexBestRank l₁ i)).mergeSort fuseLe := by
      apply List.take_of_length_le
      rw [List.length_mergeSort, List.length_map]
      exact hlen
    rw [htake, hperm.count_eq]
    exact List.count_eq_one_of_mem (dedupFirst_nodup _)
      ((mem_dedupFirst _ _).mpr (List.mem_append.mpr (Or.inl hi₁)))
  · have hcands : dedupFirst
        ((([⟨"A", 1⟩, ⟨"B", 2⟩] : List RankedHit).map RankedHit.id)
          ++ (([⟨"B", 1⟩, ⟨"A", 2⟩] : List RankedHit).map RankedHit.id))
        = ["A", "B"] := by decide
    have hsA : fusedScore k [⟨"A", 1⟩, ⟨"B", 2⟩] [⟨"B", 1⟩, ⟨"A", 2⟩] "A"
        = 1/(k+1) + 1/(k+2) := by
      show (rrfContrib k 1 + 0) + (rrfContrib k 2 + 0) = 1/(k+1) + 1/(k+2)
      unfold rrfContrib
      push_cast
      ring
    have hsB : fusedScore k [⟨"A", 1⟩, ⟨"B", 2⟩] [⟨"B", 1⟩, ⟨"A", 2⟩] "B"
        = 1/(k+1) + 1/(k+2) := by
      show (rrfContrib k 2 + 0) + (rrfContrib k 1 + 0) = 1/(k+1) + 1/(k+2)
      unfold rrfContrib
      push_cast
      ring
    have hAB : fuseKeyLE
        (FusedResult.mk "A"
          (fusedScore k [⟨"A", 1⟩, ⟨"B", 2⟩] [⟨"B", 1⟩, ⟨"A", 2⟩] "A")
          (lexBestRank [⟨"A", 1⟩, ⟨"B", 2⟩] "A"))
        (FusedResult.mk "B"
          (fusedScore k [⟨"A", 1⟩, ⟨"B", 2⟩] [⟨"B", 1⟩, ⟨"A", 2⟩] "B")
          (lexBestRank [⟨"A", 1⟩, ⟨"B", 2⟩] "B")) := by
      refine Or.inr ⟨hsA.trans hsB.symm, Or.inl ?_⟩
      show lexBestRank [⟨"A", 1⟩, ⟨"B", 2⟩] "A"
        < lexBestRank [⟨"A", 1⟩, ⟨"B", 2⟩] "B"
      decide
    have hpair : (([FusedResult.mk "A"
          (fusedScore k [⟨"A", 1⟩, ⟨"B", 2⟩] [⟨"B", 1⟩, ⟨"A", 2⟩] "A")
          (lexBestRank [⟨"A", 1⟩, ⟨"B", 2⟩] "A"),
        FusedResult.mk "B"
          (fusedScore k [⟨"A", 1⟩, ⟨"B", 2⟩] [⟨"B", 1⟩, ⟨"A", 2⟩] "B")
          (lexBestRank [⟨"A", 1⟩, ⟨"B", 2⟩] "B")] :
          List FusedResult)).Pairwise (fun a b => fuseLe a b = true) := by
      refine List.pairwise_cons.mpr ⟨?_, List.pairwise_singleton _ _⟩
      intro y hy
      rw [List.mem_singleton] at hy
      subst hy
      exact decide_eq_true hAB
    have hexample : fuse k [⟨"A", 1⟩, ⟨"B", 2⟩] [⟨"B", 1⟩, ⟨"A", 2⟩] 2
        = [FusedResult.mk "A"
            (fusedScore k [⟨"A", 1⟩, ⟨"B", 2⟩] [⟨"B", 1⟩, ⟨"A", 2⟩] "A")
            (lexBestRank [⟨"A", 1⟩, ⟨"B", 2⟩] "A"),
           FusedResult.mk "B"
            (fusedScore k [⟨"A", 1⟩, ⟨"B", 2⟩] [⟨"B", 1⟩, ⟨"A", 2⟩] "B")
            (lexBestRank [⟨"A", 1⟩, ⟨"B", 2⟩] "B")] := by
      show (((dedupFirst
          ((([⟨"A", 1⟩, ⟨"B", 2⟩] : List RankedHit).map RankedHit.id)
            ++ (([⟨"B", 1⟩, ⟨"A", 2⟩] : List RankedHit).map
                  RankedHit.id))).map fun i =>
          FusedResult.mk i
            (fusedScore k [⟨"A", 1⟩, ⟨"B", 2⟩] [⟨"B", 1⟩, ⟨"A", 2⟩] i)
            (lexBestRank [⟨"A", 1⟩, ⟨"B", 2⟩] i)).mergeSort fuseLe).take 2
        = _
      rw [hcands]
      rw [show ((["A", "B"] : List String).map fun i =>
          FusedResult.mk i
            (fusedScore k [⟨"A", 1⟩, ⟨"B", 2⟩] [⟨"B", 1⟩, ⟨"A", 2⟩] i)
            (lexBestRank [⟨"A", 1⟩, ⟨"B", 2⟩] i))
        = [FusedResult.mk "A"
            (fusedScore k [⟨"A", 1⟩, ⟨"B", 2⟩] [⟨"B", 1⟩, ⟨"A", 2⟩] "A")
            (lexBestRank [⟨"A", 1⟩, ⟨"B", 2⟩] "A"),
           FusedResult.mk "B"
            (fusedScore k [⟨"A", 1⟩, ⟨"B", 2⟩] [⟨"B", 1⟩, ⟨"A", 2⟩] "B")
            (lexBestRank [⟨"A", 1⟩, ⟨"B", 2⟩] "B")] from rfl]
      rw [List.mergeSort_of_sorted hpair]
      rfl
    constructor
    · rw [hexample]
      rfl
    · rw [hexample]
      show [fusedScore k [⟨"A", 1⟩, ⟨"B", 2⟩] [⟨"B", 1⟩, ⟨"A", 2⟩] "A",
            fusedScore k [⟨"A", 1⟩, ⟨"B", 2⟩] [⟨"B", 1⟩, ⟨"A", 2⟩] "B"]
        = [1/(k+1) + 1/(k+2), 1/(k+1) + 1/(k+2)]
      rw [hsA, hsB]

/-- C1 counterexample: with limit 0 an identifier present in both input
lists occurs zero times in the output, not exactly once — truncation can
drop identifiers, so "occurs exactly once for every limit" fails. -/
theorem fuse_truncation_counterexample :
    (("A" : String) ∈ ([⟨"A", 1⟩] : List RankedHit).map RankedHit.id ∧
     ("A" : String) ∈ ([⟨"A", 1⟩] : List RankedHit).map RankedHit.id) ∧
    ((fuse 60 [⟨"A", 1⟩] [⟨"A", 1⟩] 0).map FusedResult.id).count "A" = 0 :=
  ⟨⟨by decide, by decide⟩, rfl⟩

theorem fuse_spec_witness :
    ((fuse 60 [⟨"A", 1⟩] [⟨"A", 1⟩] 1).map FusedResult.id).count "A" = 1 := by
  have h := fuse_spec 60 [⟨"A", 1⟩] [⟨"A", 1⟩] 1 "A"
  exact h.2.2.2.1 (by decide) (by decide) (by decide)

end LiftLogic
